import Mathlib

/-!
# Verification of `bulk_update_or_create` (django-bulk-update-or-create)

Shallow embedding of `src/bulk_update_or_create/query.py`.

The external store (Django queryset / database) is modelled as a list of
persisted entities; `filter` evaluates the disjunction of per-key equality
conjunctions that `__bulk_update_or_create` builds with `functools.reduce`
over `models.Q`.  Records and entities are modelled as objects with a list
of named attributes (`hasattr` / `getattr` / `setattr`).  Attribute values
are either strings (which support `.lower()`) or non-string values (which
do not).  Python `dict` insertion-order semantics (last write wins, a
re-assigned key keeps its original position) are modelled explicitly.
-/

/-- An attribute value: a string (supports case folding via `.lower()`)
or a non-string value (does not). -/
inductive Value where
  | str : String → Value
  | int : Int → Value
deriving DecidableEq, Repr

/-- Python's `str.lower()`: lower-case every character. -/
def strLower (s : String) : String :=
  ⟨s.data.map Char.toLower⟩

/-- `v.lower() if hasattr(v, 'lower') else v`: strings are lower-cased,
other values are unchanged. -/
def Value.lower : Value → Value
  | .str s => .str (strLower s)
  | .int n => .int n

/-- A Python object (model instance or unsaved record): a list of named
attributes. -/
structure Obj where
  attrs : List (String × Value)
deriving DecidableEq, Repr

/-- `getattr(o, f)`, returning `none` when the attribute is missing
(where Python would raise `AttributeError`). -/
def Obj.getattr? (o : Obj) (f : String) : Option Value :=
  (o.attrs.find? (fun p => p.1 == f)).map (·.2)

/-- `hasattr(o, f)`. -/
def Obj.hasattr (o : Obj) (f : String) : Bool :=
  (o.getattr? f).isSome

/-- `setattr(o, f, v)`: overwrite the attribute in place when present,
otherwise add it. -/
def Obj.setattr (o : Obj) (f : String) (v : Value) : Obj :=
  if o.hasattr f then
    ⟨o.attrs.map (fun p => if p.1 == f then (f, v) else p)⟩
  else
    ⟨o.attrs ++ [(f, v)]⟩

/-- A MatchKey: the tuple of (optional) values of the match fields. -/
abbrev Key := List (Option Value)

/-- `_obj_key_getter` without `case_insensitive_match`: the tuple of the
object's `match_field` values. -/
def objKeySensitive (matchField : List String) (o : Obj) : Key :=
  matchField.map (fun f => o.getattr? f)

/-- `_obj_key_getter`: when `case_insensitive_match` is set, every tuple
component that supports `.lower()` is lower-cased. -/
def objKey (ci : Bool) (matchField : List String) (o : Obj) : Key :=
  if ci then (objKeySensitive matchField o).map (fun v => v.map Value.lower)
  else objKeySensitive matchField o

/-! ## Python `dict` with insertion order -/

/-- `d[k] = v` on an insertion-ordered dict: a re-assigned key keeps its
original position, a fresh key is appended. -/
def dictInsert (m : List (Key × Obj)) (k : Key) (v : Obj) : List (Key × Obj) :=
  if m.any (fun p => p.1 == k) then
    m.map (fun p => if p.1 == k then (k, v) else p)
  else
    m ++ [(k, v)]

/-- `d.get(k)` (`d[k]` raises `KeyError` exactly when this is `none`). -/
def dictGet? (m : List (Key × Obj)) (k : Key) : Option Obj :=
  (m.find? (fun p => p.1 == k)).map (·.2)

/-- `del d[k]`. -/
def dictDel (m : List (Key × Obj)) (k : Key) : List (Key × Obj) :=
  m.filter (fun p => !(p.1 == k))

/-- `obj_map = {_obj_key_getter(obj): obj for obj in batch}`. -/
def buildObjMap (ci : Bool) (mf : List String) (batch : List Obj) : List (Key × Obj) :=
  batch.foldl (fun m o => dictInsert m (objKey ci mf o) o) []

/-! ## The store and its filter predicate -/

/-- Database value equality for one match-field column, as seen by the
store evaluating one `k=v` item of a `models.Q`.  With
`case_insensitive_match` the library is documented for stores whose
collation is case-insensitive (MySQL "ci" collations), so equality folds
case; otherwise it is plain equality. -/
def valueMatches (ci : Bool) (a b : Option Value) : Bool :=
  if ci then (a.map Value.lower) == (b.map Value.lower) else a == b

/-- One disjunct `models.Q(**{k: obj_key[i] for i, k in enumerate(match_field)})`:
the entity's match-field values equal the key's components. -/
def entityMatchesKey (ci : Bool) (mf : List String) (e : Obj) (k : Key) : Bool :=
  (k.length == mf.length) &&
    (mf.zip k).all (fun p => valueMatches ci (e.getattr? p.1) p.2)

/-- `_obj_filter`: `reduce(lambda acc, key: acc | Q(...), obj_map.keys(), Q())`.
An empty `Q()` (possible only for an empty key set, which the algorithm
never produces because batches are non-empty) matches every row. -/
def objFilterPred (ci : Bool) (mf : List String) (keys : List Key) (e : Obj) : Bool :=
  keys.isEmpty || keys.any (fun k => entityMatchesKey ci mf e k)

/-! ## Errors and store operations -/

/-- Python exceptions the reconciler can raise.  `valueError` carries the
exact message; `keyError` is `obj_map[...]` on a missing key; and
`attributeError` is `getattr` on a missing update field (unreachable
after validation). -/
inductive PyErr where
  | valueError (msg : String)
  | keyError
  | attributeError
deriving DecidableEq, Repr

/-- One round-trip to the external store, in execution order:
`self.filter(...)`, `self.bulk_update(...)`, or `obj.save()`. -/
inductive StoreOp where
  | filter (keys : List Key)
  | bulkUpdate (objs : List Obj) (fields : List String)
  | save (o : Obj)
deriving DecidableEq, Repr

/-- A `ReconciliationOutcome`: the `(created_objs, to_update)` pair yielded
for one sub-batch. -/
abbrev Outcome := List Obj × List Obj

/-! ## Validation -/

/-- The per-object part of the validation loop: first the combined
match-field check, then each update field in order. -/
def objValidationErr (mf ufs : List String) (o : Obj) : Option PyErr :=
  if !(mf.all (fun f => o.hasattr f)) then
    some (.valueError ("some object does not have the match_field " ++
      String.intercalate ", " mf))
  else
    (ufs.find? (fun f => !(o.hasattr f))).map
      (fun f => .valueError ("some object does not have the update_field " ++ f))

/-- `for obj in objs: ...` — the whole-input field validation loop. -/
def validateObjs (mf ufs : List String) (objs : List Obj) : Option PyErr :=
  objs.findSome? (objValidationErr mf ufs)

/-- All validation performed by `__bulk_update_or_create` before any store
access: empty input, empty `update_fields`, then the field loop. -/
def validateCall (objs : List Obj) (ufs mf : List String) : Option PyErr :=
  if objs.isEmpty then some (.valueError "no objects to update_or_create...")
  else if ufs.isEmpty then some (.valueError "update_fields cannot be empty")
  else validateObjs mf ufs objs

/-! ## Batching -/

/-- `(objs[i : i + batch_size] for i in range(0, len(objs), batch_size))`.
`range(0, L, n)` has `⌈L/n⌉` elements for `n > 0` (for `n = 0` Python's
`range` raises; the algorithm only reaches this with `n ≥ 1`). -/
def batchesOf (objs : List Obj) (n : Nat) : List (List Obj) :=
  if n = 0 then []
  else (List.range ((objs.length + n - 1) / n)).map
    (fun i => (objs.drop (i * n)).take n)

/-! ## The per-batch reconciliation loop -/

/-- `for _f in update_fields: setattr(to_u, _f, getattr(obj, _f))`;
`none` models the `AttributeError` of `getattr` on a missing field
(unreachable after validation). -/
def copyFields (ufs : List String) (src : Obj) : Obj → Option Obj :=
  fun dst =>
    match ufs with
    | [] => some dst
    | f :: fs =>
      match src.getattr? f with
      | some v => copyFields fs src (dst.setattr f v)
      | none => none

/-- `for to_u in to_update: obj = obj_map[key(to_u)]; <copy fields>;
del obj_map[key(to_u)]` — returns the mutated entities (in store-returned
order) and the remaining map. -/
def applyUpdates (ci : Bool) (mf ufs : List String) :
    List (Key × Obj) → List Obj → Except PyErr (List Obj × List (Key × Obj))
  | m, [] => .ok ([], m)
  | m, r :: rest =>
    match dictGet? m (objKey ci mf r) with
    | none => .error .keyError
    | some obj =>
      match copyFields ufs obj r with
      | none => .error .attributeError
      | some r' =>
        match applyUpdates ci mf ufs (dictDel m (objKey ci mf r)) rest with
        | .ok (us, m') => .ok (r' :: us, m')
        | .error e => .error e

/-- The effect of `self.bulk_update(to_update, update_fields)` on the
store: each row that satisfied the filter predicate is replaced, in
order, by its mutated in-memory copy. -/
def replaceFiltered (p : Obj → Bool) : List Obj → List Obj → List Obj
  | [], _ => []
  | e :: es, vs =>
    if p e then
      match vs with
      | v :: vs' => v :: replaceFiltered p es vs'
      | [] => e :: replaceFiltered p es []
    else e :: replaceFiltered p es vs

/-- One iteration of `for batch in batches`: build the map, query the
store, mutate and bulk-update the matches, `save()` the rest one row at a
time.  Returns (store operations issued, store afterwards, outcome or
exception). -/
def processBatch (ci : Bool) (mf ufs : List String) (store : List Obj)
    (batch : List Obj) : List StoreOp × List Obj × Except PyErr Outcome :=
  let m := buildObjMap ci mf batch
  let keys := m.map (·.1)
  let pred := objFilterPred ci mf keys
  let toUpdate := store.filter pred
  match applyUpdates ci mf ufs m toUpdate with
  | .error e => ([.filter keys], store, .error e)
  | .ok (updated, m') =>
    let created := m'.map (·.2)
    ([.filter keys, .bulkUpdate updated ufs] ++ created.map .save,
     replaceFiltered pred store updated ++ created,
     .ok (created, updated))

/-- The whole `for batch in batches` loop, threading the store; the
outcome list collects what `yield created_objs, to_update` produces. -/
def runBatches (ci : Bool) (mf ufs : List String) :
    List Obj → List (List Obj) → List StoreOp × List Obj × Except PyErr (List Outcome)
  | store, [] => ([], store, .ok [])
  | store, b :: rest =>
    match processBatch ci mf ufs store b with
    | (ops, store', .error e) => (ops, store', .error e)
    | (ops, store', .ok oc) =>
      match runBatches ci mf ufs store' rest with
      | (ops2, store2, .ok ocs) => (ops ++ ops2, store2, .ok (oc :: ocs))
      | (ops2, store2, .error e) => (ops ++ ops2, store2, .error e)

/-- `__bulk_update_or_create`, fully drained (the sequence of outcomes the
generator yields when `yield_objects` is true; the validation and store
work are identical when it is false).  `match_field` is modelled as the
already-normalised tuple of field names and `batch_size = none` is the
`None` default (whole input in one batch). -/
def bulkUpdateOrCreate (store : List Obj) (objs : List Obj) (ufs mf : List String)
    (batchSize : Option Nat) (ci : Bool) :
    List StoreOp × List Obj × Except PyErr (List Outcome) :=
  match validateCall objs ufs mf with
  | some e => ([], store, .error e)
  | none => runBatches ci mf ufs store (batchesOf objs (batchSize.getD objs.length))

/-! ## The generator, as a step machine

`__bulk_update_or_create` is a generator function: calling it runs none of
its body.  Its execution is modelled as a state machine: advancing
(`genNext`, Python's `next()`) runs the body up to the next `yield`
(`StepOut.yielded`), to normal completion (`StepOut.stopped`,
`StopIteration`), or to an exception (`StepOut.raised`). -/

/-- Arguments captured, unexamined, when the generator is created. -/
structure GenArgs where
  objs : List Obj
  ufs : List String
  mf : List String
  batchSize : Option Nat
  ci : Bool
  yieldObjects : Bool
deriving DecidableEq, Repr

/-- Where the generator body is suspended: not yet started, at the
`yield` inside the batch loop (with the batches still to process), or
finished. -/
inductive GenState where
  | start (args : GenArgs)
  | loop (ci : Bool) (mf ufs : List String) (batches : List (List Obj))
  | finished
deriving DecidableEq, Repr

/-- Result of one `next()` on the generator. -/
inductive StepOut where
  | yielded (oc : Outcome) (next : GenState)
  | stopped
  | raised (e : PyErr)
deriving DecidableEq, Repr

/-- Resume the batch loop: with `yield_objects` the body suspends at the
`yield` after each batch; without it the loop runs to completion (the
generator yields nothing). -/
def genResume (ci : Bool) (mf ufs : List String) (yieldObjects : Bool)
    (store : List Obj) (batches : List (List Obj)) :
    List StoreOp × List Obj × StepOut :=
  if yieldObjects then
    match batches with
    | [] => ([], store, .stopped)
    | b :: rest =>
      match processBatch ci mf ufs store b with
      | (ops, store', .error e) => (ops, store', .raised e)
      | (ops, store', .ok oc) => (ops, store', .yielded oc (.loop ci mf ufs rest))
  else
    match runBatches ci mf ufs store batches with
    | (ops, store', .ok _) => (ops, store', .stopped)
    | (ops, store', .error e) => (ops, store', .raised e)

/-- One `next()`: from `start` the body first runs the validation, then
enters the batch loop. -/
def genNext (store : List Obj) : GenState → List StoreOp × List Obj × StepOut
  | .start a =>
    match validateCall a.objs a.ufs a.mf with
    | some e => ([], store, .raised e)
    | none =>
      genResume a.ci a.mf a.ufs a.yieldObjects store
        (batchesOf a.objs (a.batchSize.getD a.objs.length))
  | .loop ci mf ufs batches => genResume ci mf ufs true store batches
  | .finished => ([], store, .stopped)

/-- What `bulk_update_or_create` hands back: the untouched generator
(`yield_objects=True`) or the materialised `list(r)`
(`yield_objects=False`, where `r` yields nothing, so the list is empty on
success). -/
inductive CallResult where
  | generator (g : GenState)
  | materialized (r : Except PyErr (List Outcome))
deriving Repr

/-- The public `bulk_update_or_create`: it calls the generator function
(which executes nothing) and either returns the generator as-is or drains
it via `list(r)` — for `yield_objects=False` the single `next()` runs the
entire body. -/
def bulk_update_or_create_call (store : List Obj) (objs : List Obj)
    (ufs mf : List String) (batchSize : Option Nat) (ci yieldObjects : Bool) :
    List StoreOp × List Obj × CallResult :=
  let g := GenState.start ⟨objs, ufs, mf, batchSize, ci, yieldObjects⟩
  if yieldObjects then ([], store, .generator g)
  else
    match genNext store g with
    | (ops, store', .stopped) => (ops, store', .materialized (.ok []))
    | (ops, store', .raised e) => (ops, store', .materialized (.error e))
    | (ops, store', .yielded _ _) => (ops, store', .materialized (.ok []))

/-! ## `_BulkUpdateOrCreateContextManager` -/

/-- An error escaping `dump_queue`: a propagated reconciler exception or
an exception raised by the status callback. -/
inductive DumpErr where
  | py (e : PyErr)
  | cbError
deriving DecidableEq, Repr

/-- The context manager's state: the buffer and the constructor
arguments.  `hasCb` is whether `status_cb` is set; `batchSize` is the
flush threshold (the inner `bulk_update_or_create` call is made without
`batch_size`, so it defaults to `None`). -/
structure CM where
  queue : List Obj
  batchSize : Nat
  ufs : List String
  mf : List String
  ci : Bool
  hasCb : Bool
deriving DecidableEq, Repr

/-- Result of `dump_queue` / `queue` / `__exit__`: the new context-manager
state, the store afterwards, the store operations issued, the outcomes
passed to `status_cb` (in call order), how many times
`bulk_update_or_create` was invoked, and the escaping exception, if any. -/
structure DumpResult where
  cm : CM
  store : List Obj
  ops : List StoreOp
  cbCalls : List Outcome
  reconcileCalls : Nat
  err : Option DumpErr
deriving DecidableEq, Repr

/-- `for st in r: self._cb(st)` over the lazy generator `r`: each
`next()` processes one batch, then the callback runs on the yielded
outcome; a callback that raises (modelled by `cbOk oc = false`) abandons
the generator, leaving later batches unprocessed. -/
def forStInR (cbOk : Outcome → Bool) (ci : Bool) (mf ufs : List String) :
    List Obj → List (List Obj) →
    List StoreOp × List Obj × List Outcome × Option DumpErr
  | store, [] => ([], store, [], none)
  | store, b :: rest =>
    match processBatch ci mf ufs store b with
    | (ops, store', .error e) => (ops, store', [], some (.py e))
    | (ops, store', .ok oc) =>
      if cbOk oc then
        match forStInR cbOk ci mf ufs store' rest with
        | (ops2, store2, calls, err) => (ops ++ ops2, store2, oc :: calls, err)
      else (ops, store', [oc], some .cbError)

/-- `dump_queue`: no-op on an empty buffer; otherwise one
`bulk_update_or_create` call over the whole buffer (`yield_objects` iff a
callback is set), then `self._queue = []` — reached only when neither the
reconciler nor the callback raised. -/
def dump_queue (cbOk : Outcome → Bool) (store : List Obj) (c : CM) : DumpResult :=
  if c.queue.isEmpty then ⟨c, store, [], [], 0, none⟩
  else if c.hasCb then
    match validateCall c.queue c.ufs c.mf with
    | some e => ⟨c, store, [], [], 1, some (.py e)⟩
    | none =>
      match forStInR cbOk c.ci c.mf c.ufs store
          (batchesOf c.queue c.queue.length) with
      | (ops, store', calls, some e) => ⟨c, store', ops, calls, 1, some e⟩
      | (ops, store', calls, none) =>
        ⟨{ c with queue := [] }, store', ops, calls, 1, none⟩
  else
    match bulkUpdateOrCreate store c.queue c.ufs c.mf none c.ci with
    | (ops, store', .error e) => ⟨c, store', ops, [], 1, some (.py e)⟩
    | (ops, store', .ok _) => ⟨{ c with queue := [] }, store', ops, [], 1, none⟩

/-- Result of `queue`: a `DumpResult` plus how many times `dump_queue`
was invoked during the push. -/
structure PushResult where
  cm : CM
  store : List Obj
  ops : List StoreOp
  cbCalls : List Outcome
  flushes : Nat
  err : Option DumpErr
deriving DecidableEq, Repr

/-- `queue(obj)`: append to the buffer; if its length reached the
threshold, `dump_queue()`. -/
def cmQueue (cbOk : Outcome → Bool) (store : List Obj) (c : CM) (o : Obj) :
    PushResult :=
  let c1 := { c with queue := c.queue ++ [o] }
  if c.batchSize ≤ c1.queue.length then
    let d := dump_queue cbOk store c1
    ⟨d.cm, d.store, d.ops, d.cbCalls, 1, d.err⟩
  else ⟨c1, store, [], [], 0, none⟩

/-- `__exit__(self, type, value, traceback)`: ignores its exception
arguments and calls `dump_queue()`. -/
def cmExit (cbOk : Outcome → Bool) (store : List Obj) (c : CM)
    (_excInfo : Option PyErr) : DumpResult :=
  dump_queue cbOk store c

/-! ## Sample data used by the witnesses -/

/-- Input record with match key "a". -/
def sampleA : Obj := ⟨[("k", .str "a"), ("v", .int 1)]⟩

/-- Input record with match key "b". -/
def sampleB : Obj := ⟨[("k", .str "b"), ("v", .int 2)]⟩

/-- Input record with match key "c". -/
def sampleC : Obj := ⟨[("k", .str "c"), ("v", .int 3)]⟩

/-- Stored entity with match key "a". -/
def storedA : Obj := ⟨[("k", .str "a"), ("v", .int 10)]⟩

/-- Stored entity with match key "b". -/
def storedB : Obj := ⟨[("k", .str "b"), ("v", .int 20)]⟩

/-- Input record lacking the update field "v". -/
def sampleNoV : Obj := ⟨[("k", .str "z")]⟩

/-- A second input record with match key "a" (duplicate of `sampleA`). -/
def sampleA9 : Obj := ⟨[("k", .str "a"), ("v", .int 9)]⟩

/-- Input record with lower-case match key "foo". -/
def sampleFoo : Obj := ⟨[("k", .str "foo"), ("v", .int 7)]⟩

/-- Stored entity with mixed-case match key "Foo". -/
def storedFoo : Obj := ⟨[("k", .str "Foo"), ("v", .int 0)]⟩

/-- `storedFoo` after `sampleFoo`'s update field has been copied onto it. -/
def storedFooUpdated : Obj := ⟨[("k", .str "Foo"), ("v", .int 7)]⟩

/-! ## Attribute-access lemmas -/

theorem find?_map_replace {α β : Type} [DecidableEq α] [BEq α] [LawfulBEq α]
    (l : List (α × β)) (f g : α) (v : β) :
    (l.map (fun p => if p.1 == f then (f, v) else p)).find? (fun p => p.1 == g) =
      if g = f then (l.find? (fun p => p.1 == f)).map (fun _ => (f, v))
      else l.find? (fun p => p.1 == g) := by
  induction l with
  | nil => simp [List.find?]
  | cons p l ih =>
    simp only [List.map_cons]
    by_cases hpf : p.1 = f
    · rw [if_pos (by simpa using hpf)]
      by_cases hgf : g = f
      · subst hgf
        rw [List.find?_cons_of_pos _ (by simp), if_pos rfl,
          List.find?_cons_of_pos _ (by simpa using hpf)]
        simp
      · rw [List.find?_cons_of_neg _ (by simpa using Ne.symm hgf), if_neg hgf,
          List.find?_cons_of_neg _ (by simp [hpf, Ne.symm hgf]), ih, if_neg hgf]
    · rw [if_neg (by simpa using hpf)]
      by_cases hpg : p.1 = g
      · have hgf : ¬ g = f := fun h => hpf (by rw [hpg, h])
        rw [List.find?_cons_of_pos _ (by simpa using hpg), if_neg hgf,
          List.find?_cons_of_pos _ (by simpa using hpg)]
      · rw [List.find?_cons_of_neg _ (by simpa using hpg), ih]
        by_cases hgf : g = f
        · rw [if_pos hgf, if_pos hgf,
            List.find?_cons_of_neg _ (by simpa using hpf)]
        · rw [if_neg hgf, if_neg hgf,
            List.find?_cons_of_neg _ (by simpa using hpg)]

theorem Obj.getattr?_setattr (o : Obj) (f g : String) (v : Value) :
    (o.setattr f v).getattr? g = if g = f then some v else o.getattr? g := by
  unfold Obj.setattr Obj.hasattr
  by_cases ho : (o.getattr? f).isSome
  · simp only [ho, if_true]
    show ((o.attrs.map _).find? _).map _ = _
    rw [find?_map_replace]
    by_cases hgf : g = f
    · subst hgf
      simp only [if_pos rfl]
      unfold Obj.getattr? at ho ⊢
      cases hfind : o.attrs.find? (fun p => p.1 == g) with
      | some p => simp
      | none => rw [hfind] at ho; simp at ho
    · simp [hgf, Obj.getattr?]
  · simp only [ho, if_false, Bool.false_eq_true]
    show ((o.attrs ++ [(f, v)]).find? _).map _ = _
    rw [List.find?_append]
    by_cases hgf : g = f
    · subst hgf
      unfold Obj.getattr? at ho
      cases hfind : o.attrs.find? (fun p => p.1 == g) with
      | some p => simp [hfind] at ho
      | none => simp [hfind, List.find?]
    · have hfg : (f == g) = false := by simpa using Ne.symm hgf
      simp [List.find?, hfg, hgf, Obj.getattr?]

/-- Copying well-formed update fields succeeds and sets exactly those
fields to the source's values, leaving every other attribute unchanged. -/
theorem copyFields_spec (ufs : List String) (src dst : Obj)
    (h : ∀ f ∈ ufs, (src.getattr? f).isSome) :
    ∃ d', copyFields ufs src dst = some d' ∧
      ∀ g, d'.getattr? g = if g ∈ ufs then src.getattr? g else dst.getattr? g := by
  induction ufs generalizing dst with
  | nil => exact ⟨dst, rfl, by simp⟩
  | cons f fs ih =>
    obtain ⟨v, hv⟩ := Option.isSome_iff_exists.mp (h f (by simp))
    obtain ⟨d', hd', hspec⟩ := ih (dst.setattr f v) (fun g hg => h g (by simp [hg]))
    refine ⟨d', ?_, ?_⟩
    · show (match src.getattr? f with
        | some v => copyFields fs src (dst.setattr f v)
        | none => none) = some d'
      rw [hv]
      exact hd'
    · intro g
      rw [hspec g]
      by_cases hgfs : g ∈ fs
      · simp [hgfs]
      · by_cases hgf : g = f
        · subst hgf
          simp [hgfs, Obj.getattr?_setattr, hv]
        · simp [hgfs, hgf, Obj.getattr?_setattr]

/-! ## Dict lemmas -/

theorem dictGet?_dictInsert (m : List (Key × Obj)) (k k' : Key) (v : Obj) :
    dictGet? (dictInsert m k v) k' = if k' = k then some v else dictGet? m k' := by
  unfold dictInsert dictGet?
  by_cases hm : m.any (fun p => p.1 == k) = true
  · rw [if_pos hm, find?_map_replace]
    by_cases hk : k' = k
    · subst hk
      rw [if_pos rfl, if_pos rfl]
      have hs : (m.find? (fun p => p.1 == k')).isSome := by
        rw [List.find?_isSome]
        exact List.any_eq_true.mp hm
      cases hfind : m.find? (fun p => p.1 == k') with
      | none => rw [hfind] at hs; simp at hs
      | some q => simp
    · rw [if_neg hk, if_neg hk]
  · rw [if_neg hm, List.find?_append]
    by_cases hk : k' = k
    · subst hk
      have hnone : m.find? (fun p => p.1 == k') = none := by
        rw [List.find?_eq_none]
        intro p hp hpk
        exact hm (List.any_eq_true.mpr ⟨p, hp, hpk⟩)
      simp [hnone, List.find?]
    · have hkk : (k == k') = false := by simpa using Ne.symm hk
      simp [List.find?, hkk, hk]

theorem dictGet?_dictDel_ne (m : List (Key × Obj)) (k k' : Key) (h : k' ≠ k) :
    dictGet? (dictDel m k) k' = dictGet? m k' := by
  unfold dictDel dictGet?
  induction m with
  | nil => simp
  | cons p m ih =>
    by_cases hpk : p.1 = k
    · have h1 : (!(p.1 == k)) = false := by simp [hpk]
      have h2 : (p.1 == k') = false := by simp [hpk, Ne.symm h]
      simp only [List.filter_cons, h1, Bool.false_eq_true, if_false,
        List.find?_cons, h2]
      exact ih
    · have h1 : (!(p.1 == k)) = true := by simp [hpk]
      simp only [List.filter_cons, h1, if_true, List.find?_cons]
      cases hpk' : (p.1 == k') with
      | true => simp only [hpk']
      | false =>
        simp only [hpk']
        exact ih

theorem mem_of_mem_dictDel {m : List (Key × Obj)} {k : Key} {p : Key × Obj}
    (h : p ∈ dictDel m k) : p ∈ m :=
  List.mem_of_mem_filter h

theorem mem_dictInsert (m : List (Key × Obj)) (k : Key) (v : Obj)
    (p : Key × Obj) (h : p ∈ dictInsert m k v) : p ∈ m ∨ p = (k, v) := by
  unfold dictInsert at h
  split at h
  · obtain ⟨q, hq, hqe⟩ := List.mem_map.mp h
    by_cases hqk : q.1 = k
    · right
      rw [← hqe]
      simp [hqk]
    · left
      rw [← hqe]
      simpa [hqk] using hq
  · rcases List.mem_append.mp h with h | h
    · exact Or.inl h
    · exact Or.inr (by simpa using h)

theorem dictInsert_fresh (m : List (Key × Obj)) (k : Key) (v : Obj)
    (h : ∀ p ∈ m, p.1 ≠ k) : dictInsert m k v = m ++ [(k, v)] := by
  unfold dictInsert
  have hno : ¬ (m.any (fun p => p.1 == k) = true) := by
    intro hc
    obtain ⟨p, hp, hpk⟩ := List.any_eq_true.mp hc
    exact h p hp (by simpa using hpk)
  rw [if_neg hno]

theorem fst_dictInsert (m : List (Key × Obj)) (k : Key) (v : Obj) :
    (dictInsert m k v).map Prod.fst =
      if m.any (fun p => p.1 == k) then m.map Prod.fst
      else m.map Prod.fst ++ [k] := by
  unfold dictInsert
  by_cases hm : m.any (fun p => p.1 == k) = true
  · rw [if_pos hm, if_pos hm, List.map_map]
    refine List.map_congr_left (fun p _ => ?_)
    by_cases hpk : p.1 = k
    · simp [hpk]
    · simp [hpk]
  · rw [if_neg hm, if_neg hm, List.map_append]
    rfl

/-! ## `buildObjMap` lemmas -/

theorem buildObjMap_append (ci : Bool) (mf : List String) (l : List Obj) (o : Obj) :
    buildObjMap ci mf (l ++ [o]) =
      dictInsert (buildObjMap ci mf l) (objKey ci mf o) o := by
  unfold buildObjMap
  rw [List.foldl_append]
  rfl

/-- The lookup map sends each key to the **last** record of the batch
with that key (Python dict comprehension semantics). -/
theorem dictGet?_buildObjMap (ci : Bool) (mf : List String) (batch : List Obj)
    (k : Key) :
    dictGet? (buildObjMap ci mf batch) k =
      (batch.filter (fun o => objKey ci mf o == k)).getLast? := by
  induction batch using List.reverseRecOn with
  | nil => rfl
  | append_singleton l o ih =>
    rw [buildObjMap_append, dictGet?_dictInsert, List.filter_append]
    by_cases hk : k = objKey ci mf o
    · rw [if_pos hk]
      have : (objKey ci mf o == k) = true := by simp [hk]
      simp [this]
    · rw [if_neg hk]
      have : (objKey ci mf o == k) = false := by
        simpa using fun h => hk h.symm
      simp [this, ih]

/-- The lookup map holds a key exactly when some record of the batch has
that key. -/
theorem dictGet?_isSome_iff (m : List (Key × Obj)) (k : Key) :
    (dictGet? m k).isSome ↔ k ∈ m.map Prod.fst := by
  unfold dictGet?
  rw [Option.isSome_map']
  rw [List.find?_isSome]
  constructor
  · intro hs
    obtain ⟨q, hq, hqk⟩ := hs
    exact List.mem_map.mpr ⟨q, hq, by simpa using hqk⟩
  · intro hmem
    obtain ⟨q, hq, rfl⟩ := List.mem_map.mp hmem
    exact ⟨q, hq, by simp⟩

/-- The lookup map's keys are exactly the batch's (deduplicated) keys. -/
theorem mem_fst_buildObjMap (ci : Bool) (mf : List String) (batch : List Obj)
    (k : Key) :
    k ∈ (buildObjMap ci mf batch).map Prod.fst ↔
      k ∈ batch.map (objKey ci mf) := by
  rw [← dictGet?_isSome_iff, dictGet?_buildObjMap, List.getLast?_isSome]
  constructor
  · intro h
    rcases List.exists_mem_of_ne_nil _ h with ⟨o, ho⟩
    have hm := List.mem_filter.mp ho
    exact List.mem_map.mpr ⟨o, hm.1, by simpa using hm.2⟩
  · intro h
    obtain ⟨o, ho, rfl⟩ := List.mem_map.mp h
    intro hnil
    rw [List.filter_eq_nil_iff] at hnil
    exact hnil o ho (by simp)

/-- Every value stored in the lookup map is one of the batch's records. -/
theorem snd_mem_buildObjMap (ci : Bool) (mf : List String) (batch : List Obj) :
    ∀ p ∈ buildObjMap ci mf batch, p.2 ∈ batch := by
  induction batch using List.reverseRecOn with
  | nil => simp [buildObjMap]
  | append_singleton l o ih =>
    intro p hp
    rw [buildObjMap_append] at hp
    rcases mem_dictInsert _ _ _ _ hp with h | h
    · exact List.mem_append.mpr (Or.inl (ih p h))
    · subst h
      simp

/-- With pairwise-distinct keys the lookup map is the batch itself,
keyed, in input order. -/
theorem buildObjMap_nodup (ci : Bool) (mf : List String) (batch : List Obj)
    (h : (batch.map (objKey ci mf)).Nodup) :
    buildObjMap ci mf batch = batch.map (fun o => (objKey ci mf o, o)) := by
  induction batch using List.reverseRecOn with
  | nil => rfl
  | append_singleton l o ih =>
    rw [List.map_append] at h
    have hl : (l.map (objKey ci mf)).Nodup := (List.nodup_append.mp h).1
    have hfresh : objKey ci mf o ∉ l.map (objKey ci mf) := by
      have hdisj := (List.nodup_append.mp h).2.2
      intro hmem
      exact hdisj hmem (by simp)
    rw [buildObjMap_append, ih hl, dictInsert_fresh]
    · simp
    · intro p hp
      obtain ⟨o', ho', rfl⟩ := List.mem_map.mp hp
      intro hk
      exact hfresh (by
        rw [← hk]
        exact List.mem_map_of_mem _ ho')

/-! ## Case-folding lemmas -/

theorem charToNat_ofNat {n : Nat} (h : n.isValidChar) :
    (Char.ofNat n).toNat = n := by
  unfold Char.ofNat
  rw [dif_pos h]
  rfl

theorem charToLower_idem (c : Char) : c.toLower.toLower = c.toLower := by
  unfold Char.toLower
  by_cases h : c.toNat ≥ 65 ∧ c.toNat ≤ 90
  · rw [if_pos h]
    have hv : (c.toNat + 32).isValidChar := Or.inl (by omega)
    rw [charToNat_ofNat hv, if_neg (by omega)]
  · rw [if_neg h, if_neg h]

theorem strLower_idem (s : String) : strLower (strLower s) = strLower s := by
  show String.mk ((s.data.map Char.toLower).map Char.toLower) =
    String.mk (s.data.map Char.toLower)
  rw [List.map_map]
  exact congrArg String.mk (List.map_congr_left (fun c _ => charToLower_idem c))

theorem valueLower_idem (v : Value) : v.lower.lower = v.lower := by
  cases v with
  | str s => exact congrArg Value.str (strLower_idem s)
  | int n => rfl

theorem optionLower_idem (v : Option Value) :
    (v.map Value.lower).map Value.lower = v.map Value.lower := by
  cases v with
  | none => rfl
  | some x => simp [valueLower_idem]

/-! ## Key-computation lemmas -/

theorem objKey_true_eq (mf : List String) (o : Obj) :
    objKey true mf o = mf.map (fun f => (o.getattr? f).map Value.lower) := by
  unfold objKey objKeySensitive
  rw [if_pos rfl, List.map_map]
  rfl

theorem objKey_false_eq (mf : List String) (o : Obj) :
    objKey false mf o = mf.map (fun f => o.getattr? f) := rfl

theorem objKey_length (ci : Bool) (mf : List String) (o : Obj) :
    (objKey ci mf o).length = mf.length := by
  cases ci <;> simp [objKey, objKeySensitive]

theorem all_congr_list {α : Type} (xs : List α) (p q : α → Bool)
    (hpq : ∀ x ∈ xs, p x = q x) : xs.all p = xs.all q := by
  induction xs with
  | cons y ys ihy =>
    simp only [List.all_cons, hpq y (by simp)]
    rw [ihy (fun z hz => hpq z (by simp [hz]))]
  | nil => rfl

theorem zip_self_map {α β : Type} (l : List α) (g : α → β) (p : α × β → Bool) :
    (l.zip (l.map g)).all p = l.all (fun a => p (a, g a)) := by
  induction l with
  | nil => rfl
  | cons a l ih => simp only [List.map_cons, List.zip_cons_cons, List.all_cons, ih]

theorem all_beq_iff_map_eq {α β : Type} [BEq β] [LawfulBEq β] (l : List α) (f g : α → β) :
    l.all (fun a => f a == g a) = true ↔ l.map f = l.map g := by
  induction l with
  | nil => simp
  | cons a l ih => simp [ih]

/-- An entity satisfies the equality conjunction built from a record's
key exactly when the entity's own key (computed the same way, by
`_obj_key_getter`) equals that record's key. -/
theorem entityMatchesKey_objKey_iff (ci : Bool) (mf : List String) (e o : Obj) :
    entityMatchesKey ci mf e (objKey ci mf o) = true ↔
      objKey ci mf e = objKey ci mf o := by
  unfold entityMatchesKey
  rw [Bool.and_eq_true]
  have h1 : ((objKey ci mf o).length == mf.length) = true := by
    simp [objKey_length]
  simp only [h1, true_and]
  cases ci
  · rw [objKey_false_eq, zip_self_map]
    unfold valueMatches
    simp only [Bool.if_false_left, Bool.false_eq_true, if_false]
    rw [objKey_false_eq mf e]
    exact all_beq_iff_map_eq mf (fun f => e.getattr? f) (fun f => o.getattr? f)
  · rw [objKey_true_eq, zip_self_map]
    unfold valueMatches
    simp only [if_true]
    rw [all_congr_list _ _
      (fun f => (e.getattr? f).map Value.lower == (o.getattr? f).map Value.lower)
      (fun a _ => by rw [optionLower_idem])]
    rw [objKey_true_eq mf e]
    exact all_beq_iff_map_eq mf (fun f => (e.getattr? f).map Value.lower)
      (fun f => (o.getattr? f).map Value.lower)

/-! ## Batching lemmas -/

theorem batchesOf_length (objs : List Obj) (n : Nat) (h : n ≠ 0) :
    (batchesOf objs n).length = (objs.length + n - 1) / n := by
  simp [batchesOf, h]

theorem batchesOf_get? (objs : List Obj) (n : Nat) (h : n ≠ 0) (i : Nat)
    (hi : i < (objs.length + n - 1) / n) :
    (batchesOf objs n)[i]? = some ((objs.drop (i * n)).take n) := by
  simp [batchesOf, h, hi]

/-- `batch_size = None` means one single batch: the whole input. -/
theorem batchesOf_self (objs : List Obj) (h : objs ≠ []) :
    batchesOf objs objs.length = [objs] := by
  have hL : objs.length ≠ 0 := by simpa using h
  unfold batchesOf
  rw [if_neg hL]
  have hdiv : (objs.length + objs.length - 1) / objs.length = 1 := by
    apply Nat.div_eq_of_lt_le
    · omega
    · omega
  rw [hdiv]
  show [((objs.drop (0 * objs.length)).take objs.length)] = [objs]
  simp

/-! ## Update-loop lemmas -/

theorem dictGet?_eq_some_mem {m : List (Key × Obj)} {k : Key} {obj : Obj}
    (h : dictGet? m k = some obj) : (k, obj) ∈ m := by
  unfold dictGet? at h
  cases hfind : m.find? (fun p => p.1 == k) with
  | none => rw [hfind] at h; simp at h
  | some p =>
    rw [hfind] at h
    have hpk := List.find?_some hfind
    have hpm := List.mem_of_find?_eq_some hfind
    have hp1 : p.1 = k := by simpa using hpk
    have hp2 : p.2 = obj := by simpa using h
    have : p = (k, obj) := by
      cases p
      simp_all
    rw [← this]
    exact hpm

theorem applyUpdates_remaining_sub (ci : Bool) (mf ufs : List String)
    (m : List (Key × Obj)) (rows : List Obj) (us : List Obj)
    (m' : List (Key × Obj))
    (h : applyUpdates ci mf ufs m rows = .ok (us, m')) : ∀ p ∈ m', p ∈ m := by
  induction rows generalizing m us with
  | nil =>
    unfold applyUpdates at h
    cases h
    exact fun p hp => hp
  | cons r rest ih =>
    unfold applyUpdates at h
    cases hget : dictGet? m (objKey ci mf r) with
    | none => simp only [hget] at h; cases h
    | some obj =>
      simp only [hget] at h
      cases hcf : copyFields ufs obj r with
      | none => simp only [hcf] at h; cases h
      | some r' =>
        simp only [hcf] at h
        cases hrec : applyUpdates ci mf ufs (dictDel m (objKey ci mf r)) rest with
        | error e => simp only [hrec] at h; cases h
        | ok pair =>
          obtain ⟨us2, m2⟩ := pair
          simp only [hrec] at h
          cases h
          exact fun p hp => mem_of_mem_dictDel (ih _ _ hrec p hp)

/-- When the store returns no rows the update loop does nothing. -/
theorem applyUpdates_nil_rows (ci : Bool) (mf ufs : List String)
    (m : List (Key × Obj)) : applyUpdates ci mf ufs m [] = .ok ([], m) := rfl

/-- Records created by one batch are records of that batch. -/
theorem processBatch_created_mem (ci : Bool) (mf ufs : List String)
    (store batch : List Obj) (ops : List StoreOp) (store' : List Obj)
    (oc : Outcome) (h : processBatch ci mf ufs store batch = (ops, store', .ok oc)) :
    ∀ o ∈ oc.1, o ∈ batch := by
  simp only [processBatch] at h
  cases happ : applyUpdates ci mf ufs (buildObjMap ci mf batch)
      (store.filter (objFilterPred ci mf ((buildObjMap ci mf batch).map (·.1)))) with
  | error e => simp only [happ] at h; cases h
  | ok pair =>
    obtain ⟨updated, m'⟩ := pair
    simp only [happ] at h
    cases h
    intro o ho
    obtain ⟨p, hp, rfl⟩ := List.mem_map.mp ho
    exact snd_mem_buildObjMap ci mf batch p
      (applyUpdates_remaining_sub ci mf ufs _ _ _ _ happ p hp)

/-! ## Validation characterisation -/

theorem validateObjs_none_iff (mf ufs : List String) (objs : List Obj) :
    validateObjs mf ufs objs = none ↔
      ∀ o ∈ objs, (mf.all (fun f => o.hasattr f)) = true ∧
        ∀ f ∈ ufs, o.hasattr f = true := by
  unfold validateObjs
  rw [List.findSome?_eq_none_iff]
  constructor
  · intro h o ho
    have hv := h o ho
    unfold objValidationErr at hv
    by_cases hmf : (mf.all (fun f => o.hasattr f)) = true
    · refine ⟨hmf, ?_⟩
      rw [if_neg (by simp [hmf])] at hv
      intro f hf
      cases hfind : ufs.find? (fun f => !(o.hasattr f)) with
      | some g => rw [hfind] at hv; simp at hv
      | none =>
        have := List.find?_eq_none.mp hfind f hf
        simpa using this
    · rw [if_pos (by simpa using hmf)] at hv
      simp at hv
  · intro h o ho
    unfold objValidationErr
    rw [if_neg (by simp [(h o ho).1])]
    have hfind : ufs.find? (fun f => !(o.hasattr f)) = none := by
      rw [List.find?_eq_none]
      intro f hf
      simpa using (h o ho).2 f hf
    rw [hfind]
    rfl

theorem validateCall_none_iff (objs : List Obj) (ufs mf : List String) :
    validateCall objs ufs mf = none ↔
      objs ≠ [] ∧ ufs ≠ [] ∧
        ∀ o ∈ objs, (mf.all (fun f => o.hasattr f)) = true ∧
          ∀ f ∈ ufs, o.hasattr f = true := by
  unfold validateCall
  by_cases h1 : objs.isEmpty
  · simp [h1, List.isEmpty_iff.mp h1]
  · rw [if_neg h1]
    by_cases h2 : ufs.isEmpty
    · simp [h2, List.isEmpty_iff.mp h2]
    · rw [if_neg h2]
      rw [validateObjs_none_iff]
      have h1' : objs ≠ [] := by simpa using h1
      have h2' : ufs ≠ [] := by simpa using h2
      simp [h1', h2']

/-- **C4**: `bulk_update_or_create` raises a `ValueError` before any store
access whenever the input is empty, `update_fields` is empty, or any
record of the input lacks one of the match fields or update fields: the
result is an error, the list of issued store operations is empty, and the
store is unchanged.  The field check runs over the whole input before the
first sub-batch, so a malformed later record also prevents all store side
effects. -/
theorem C4_validation_failfast (store objs : List Obj) (ufs mf : List String)
    (bs : Option Nat) (ci : Bool)
    (h : objs = [] ∨ ufs = [] ∨
      ∃ o ∈ objs, ¬ (mf.all (fun f => o.hasattr f)) = true ∨
        ∃ f ∈ ufs, ¬ o.hasattr f = true) :
    ∃ e, bulkUpdateOrCreate store objs ufs mf bs ci = ([], store, .error e) := by
  have hne : validateCall objs ufs mf ≠ none := by
    intro hv
    obtain ⟨h1, h2, h3⟩ := (validateCall_none_iff objs ufs mf).mp hv
    rcases h with h | h | ⟨o, ho, h⟩
    · exact h1 h
    · exact h2 h
    · rcases h with h | ⟨f, hf, h⟩
      · exact h (h3 o ho).1
      · exact h ((h3 o ho).2 f hf)
  obtain ⟨e, he⟩ := Option.ne_none_iff_exists'.mp hne
  refine ⟨e, ?_⟩
  unfold bulkUpdateOrCreate
  rw [he]

/-- **C4 witness**: a concrete input whose second record lacks the update
field fails with no store operations and an unchanged store. -/
theorem C4_validation_failfast_witness :
    ∃ e, bulkUpdateOrCreate [storedA] [sampleA, sampleNoV] ["v"] ["k"]
      none false = ([], [storedA], .error e) :=
  C4_validation_failfast [storedA] [sampleA, sampleNoV] ["v"] ["k"] none false
    (Or.inr (Or.inr ⟨sampleNoV, by decide, Or.inr ⟨"v", by decide, by decide⟩⟩))

/-- **C5**: building the per-batch lookup map is last-write-wins: a key
maps to the last record of the batch bearing it (`dictGet?` returns the
`getLast?` of the matching records), the map's key set is still exactly
the batch's key set, the dropped earlier records are simply absent (the
map is built by a total function — no error is raised), and the batch's
reconciliation consumes only the map.  Concretely, reconciling
`[sampleA, sampleA9, sampleB]`, where the first two share key "a", creates
only `sampleA9` and `sampleB`. -/
theorem C5_last_write_wins (ci : Bool) (mf : List String) (batch : List Obj)
    (k : Key) :
    (dictGet? (buildObjMap ci mf batch) k =
      (batch.filter (fun o => objKey ci mf o == k)).getLast?) ∧
    (k ∈ (buildObjMap ci mf batch).map Prod.fst ↔
      k ∈ batch.map (objKey ci mf)) ∧
    (bulkUpdateOrCreate [] [sampleA, sampleA9, sampleB] ["v"] ["k"]
        none false).2.2 = .ok [([sampleA9, sampleB], [])] :=
  ⟨dictGet?_buildObjMap ci mf batch k, mem_fst_buildObjMap ci mf batch k, rfl⟩

/-- **C6**: with `case_insensitive_match` the MatchKey lower-cases every
component that supports case folding (strings) and leaves others (ints)
unchanged; without it the values are used verbatim.  The same key
computation is applied to input records and to entities coming back from
the existence query: an entity satisfies the query predicate built from a
record's key exactly when its own key, computed by the same
`_obj_key_getter`, equals the record's key.  Concretely, stored `"Foo"`
matches input `"foo"` (and is updated) when the flag is set, and does not
match (the input is created instead) when it is not. -/
theorem C6_case_insensitive_key :
    (∀ (mf : List String) (o : Obj),
      objKey true mf o = mf.map (fun f => (o.getattr? f).map Value.lower)) ∧
    (∀ (mf : List String) (o : Obj),
      objKey false mf o = mf.map (fun f => o.getattr? f)) ∧
    (∀ s, Value.lower (.str s) = .str (strLower s)) ∧
    (∀ n, Value.lower (.int n) = .int n) ∧
    (∀ (ci : Bool) (mf : List String) (e o : Obj),
      entityMatchesKey ci mf e (objKey ci mf o) = true ↔
        objKey ci mf e = objKey ci mf o) ∧
    (bulkUpdateOrCreate [storedFoo] [sampleFoo] ["v"] ["k"] none true).2.2 =
      .ok [([], [storedFooUpdated])] ∧
    (bulkUpdateOrCreate [storedFoo] [sampleFoo] ["v"] ["k"] none false).2.2 =
      .ok [([sampleFoo], [])] :=
  ⟨objKey_true_eq, objKey_false_eq, fun _ => rfl, fun _ => rfl,
    entityMatchesKey_objKey_iff, rfl, rfl⟩

/-! ## C1: all-created run -/

theorem replaceFiltered_nil (p : Obj → Bool) (es : List Obj) :
    replaceFiltered p es [] = es := by
  induction es with
  | nil => rfl
  | cons e es ih =>
    unfold replaceFiltered
    split <;> simp [ih]

/-- **C1**: on a non-empty input whose match keys are pairwise distinct
and for which the existence query returns no pre-existing matching
entities, every record is classified as created and none as updated: the
single outcome is `(objs, [])`, the store operations are the existence
query, an empty bulk-update, and one single-row `save()` per record in
map-iteration order (= input order), and the store gains exactly the
input records. -/
theorem C1_all_created (store objs : List Obj) (ufs mf : List String) (ci : Bool)
    (hv : validateCall objs ufs mf = none)
    (hnd : (objs.map (objKey ci mf)).Nodup)
    (hempty : store.filter (objFilterPred ci mf (objs.map (objKey ci mf))) = []) :
    bulkUpdateOrCreate store objs ufs mf none ci =
      ([.filter (objs.map (objKey ci mf)), .bulkUpdate [] ufs] ++
         objs.map .save,
       store ++ objs, .ok [(objs, [])]) := by
  have hne : objs ≠ [] := ((validateCall_none_iff objs ufs mf).mp hv).1
  have hmap := buildObjMap_nodup ci mf objs hnd
  have hkeys : (buildObjMap ci mf objs).map (fun p => p.1) =
      objs.map (objKey ci mf) := by
    rw [hmap, List.map_map]
    rfl
  have hsnd : (buildObjMap ci mf objs).map (fun p => p.2) = objs := by
    rw [hmap, List.map_map]
    have hc : ((fun p : Key × Obj => p.2) ∘ fun o => (objKey ci mf o, o)) =
        fun o => o := rfl
    rw [hc, List.map_id']
  simp only [bulkUpdateOrCreate, hv, Option.getD_none]
  rw [batchesOf_self objs hne]
  simp only [runBatches, processBatch, hkeys, hempty, applyUpdates_nil_rows,
    replaceFiltered_nil, hsnd]
  rw [List.append_nil]

/-- **C1 witness**: two fresh records against a store holding only an
unrelated entity are both created, in order, via single-row saves. -/
theorem C1_all_created_witness :
    bulkUpdateOrCreate [storedB] [sampleA, sampleC] ["v"] ["k"] none false =
      ([.filter ([sampleA, sampleC].map (objKey false ["k"])),
        .bulkUpdate [] ["v"]] ++ [sampleA, sampleC].map .save,
       [storedB] ++ [sampleA, sampleC], .ok [([sampleA, sampleC], [])]) :=
  C1_all_created [storedB] [sampleA, sampleC] ["v"] ["k"] false
    (by decide) (by decide) (by decide)

/-! ## C3: batching structure -/

theorem runBatches_cons (ci : Bool) (mf ufs : List String) (store : List Obj)
    (b : List Obj) (rest : List (List Obj)) :
    runBatches ci mf ufs store (b :: rest) =
      match processBatch ci mf ufs store b with
      | (ops, store', .error e) => (ops, store', .error e)
      | (ops, store', .ok oc) =>
        match runBatches ci mf ufs store' rest with
        | (ops2, store2, .ok ocs) => (ops ++ ops2, store2, .ok (oc :: ocs))
        | (ops2, store2, .error e) => (ops ++ ops2, store2, .error e) := rfl

theorem runBatches_ok_spec (ci : Bool) (mf ufs : List String) (store : List Obj)
    (bs : List (List Obj)) (ops : List StoreOp) (store' : List Obj)
    (outs : List Outcome)
    (h : runBatches ci mf ufs store bs = (ops, store', .ok outs)) :
    outs.length = bs.length ∧
    ∀ (i : Nat) (oc : Outcome), outs[i]? = some oc →
      ∀ (b : List Obj), bs[i]? = some b → ∀ o ∈ oc.1, o ∈ b := by
  induction bs generalizing store ops store' outs with
  | nil =>
    unfold runBatches at h
    cases h
    refine ⟨rfl, ?_⟩
    intro i oc hoc
    simp at hoc
  | cons b rest ih =>
    rw [runBatches_cons] at h
    rcases hpb : processBatch ci mf ufs store b with ⟨ops1, store1, res1⟩
    rw [hpb] at h
    cases res1 with
    | error e => simp at h
    | ok oc0 =>
      dsimp only [] at h
      rcases hrec : runBatches ci mf ufs store1 rest with ⟨ops2, store2, res2⟩
      rw [hrec] at h
      cases res2 with
      | error e => simp at h
      | ok ocs =>
        simp only [Prod.mk.injEq] at h
        obtain ⟨hops, hst, houts⟩ := h
        have houts' : outs = oc0 :: ocs := by
          injection houts with h'
          exact h'.symm
        subst houts'
        subst hst
        obtain ⟨ihlen, ihmem⟩ := ih store1 ops2 store2 ocs hrec
        refine ⟨by simp [ihlen], ?_⟩
        intro i oc hoc bx hbx o ho
        cases i with
        | zero =>
          simp only [List.getElem?_cons_zero, Option.some.injEq] at hoc hbx
          subst hoc
          subst hbx
          exact processBatch_created_mem ci mf ufs store b ops1 store1 oc0 hpb o ho
        | succ i =>
          simp only [List.getElem?_cons_succ] at hoc hbx
          exact ihmem i oc hoc bx hbx o ho

/-- **C3**: whenever a reconcile run completes successfully with
`batch_size = N` (`N > 0`) over `M` records it produces exactly
`⌈M/N⌉` outcomes; with `batch_size` omitted (`none`) it produces exactly
one; and every record created in the `i`-th outcome comes from the
contiguous input slice `objs[i*N : i*N + N]`. -/
theorem C3_batching (store objs : List Obj) (ufs mf : List String) (ci : Bool)
    (bs : Option Nat) (hpos : ∀ N, bs = some N → 0 < N)
    (ops : List StoreOp) (store' : List Obj) (outs : List Outcome)
    (h : bulkUpdateOrCreate store objs ufs mf bs ci = (ops, store', .ok outs)) :
    outs.length =
      (objs.length + bs.getD objs.length - 1) / bs.getD objs.length ∧
    (bs = none → outs.length = 1) ∧
    ∀ (i : Nat) (oc : Outcome), outs[i]? = some oc → ∀ o ∈ oc.1,
      o ∈ (objs.drop (i * bs.getD objs.length)).take (bs.getD objs.length) := by
  unfold bulkUpdateOrCreate at h
  cases hv : validateCall objs ufs mf with
  | some e =>
    rw [hv] at h
    simp at h
  | none =>
    rw [hv] at h
    have hne : objs ≠ [] := ((validateCall_none_iff objs ufs mf).mp hv).1
    have hn0 : bs.getD objs.length ≠ 0 := by
      cases bs with
      | none =>
        simp only [Option.getD_none]
        simpa using hne
      | some N =>
        have := hpos N rfl
        simp only [Option.getD_some]
        omega
    obtain ⟨hlen, hmem⟩ := runBatches_ok_spec ci mf ufs store _ ops store' outs h
    refine ⟨?_, ?_, ?_⟩
    · rw [hlen, batchesOf_length _ _ hn0]
    · intro hbs
      subst hbs
      rw [hlen, batchesOf_length _ _ hn0]
      simp only [Option.getD_none]
      have hL : 1 ≤ objs.length := by
        cases objs with
        | nil => exact absurd rfl hne
        | cons a l => simp
      apply Nat.div_eq_of_lt_le <;> omega
    · intro i oc hoc o ho
      have hi : i < outs.length := (List.getElem?_eq_some_iff.mp hoc).1
      have hb : (batchesOf objs (bs.getD objs.length))[i]? =
          some ((objs.drop (i * bs.getD objs.length)).take (bs.getD objs.length)) := by
        apply batchesOf_get? objs _ hn0 i
        rw [← batchesOf_length _ _ hn0, ← hlen]
        exact hi
      exact hmem i oc hoc _ hb o ho

/-- **C3 witness**: three records with `batch_size = 2` produce
`⌈3/2⌉ = 2` outcomes. -/
theorem C3_batching_witness :
    ([([sampleA, sampleB], []), ([sampleC], [])] : List Outcome).length =
      ([sampleA, sampleB, sampleC].length + 2 - 1) / 2 :=
  (C3_batching [] [sampleA, sampleB, sampleC] ["v"] ["k"] false (some 2)
    (fun N hN => by injection hN with h; omega)
    [.filter [[some (.str "a")], [some (.str "b")]], .bulkUpdate [] ["v"],
     .save sampleA, .save sampleB, .filter [[some (.str "c")]],
     .bulkUpdate [] ["v"], .save sampleC]
    [sampleA, sampleB, sampleC]
    [([sampleA, sampleB], []), ([sampleC], [])] rfl).1

/-! ## C2: all-updated run -/

/-- If the store rows returned by the existence query have pairwise
distinct keys, each key is in the lookup map, and every map key is hit by
some row, then the update loop succeeds, empties the map, and mutates each
row from its matching record. -/
theorem applyUpdates_complete (ci : Bool) (mf ufs : List String)
    (m : List (Key × Obj)) (rows : List Obj)
    (hrows : ∀ r ∈ rows, objKey ci mf r ∈ m.map Prod.fst)
    (hrowsNodup : (rows.map (objKey ci mf)).Nodup)
    (hsub : ∀ p ∈ m, ∃ r ∈ rows, objKey ci mf r = p.1)
    (hcopy : ∀ p ∈ m, ∀ f ∈ ufs, ((p.2).getattr? f).isSome) :
    ∃ us, applyUpdates ci mf ufs m rows = .ok (us, []) ∧
      ∀ r ∈ rows, ∃ obj u, dictGet? m (objKey ci mf r) = some obj ∧
        copyFields ufs obj r = some u ∧ u ∈ us := by
  induction rows generalizing m with
  | nil =>
    have hm : m = [] := by
      cases m with
      | nil => rfl
      | cons p m' =>
        obtain ⟨r, hr, -⟩ := hsub p (by simp)
        exact absurd hr (by simp)
    subst hm
    exact ⟨[], rfl, by simp⟩
  | cons r rest ih =>
    have hk : objKey ci mf r ∈ m.map Prod.fst := hrows r (by simp)
    have hget : (dictGet? m (objKey ci mf r)).isSome :=
      (dictGet?_isSome_iff m _).mpr hk
    obtain ⟨obj, hobj⟩ := Option.isSome_iff_exists.mp hget
    have hmem : (objKey ci mf r, obj) ∈ m := dictGet?_eq_some_mem hobj
    have hcf : ∀ f ∈ ufs, (obj.getattr? f).isSome := fun f hf =>
      hcopy (objKey ci mf r, obj) hmem f hf
    obtain ⟨u, hu, -⟩ := copyFields_spec ufs obj r hcf
    have hkey_ne : ∀ r' ∈ rest, objKey ci mf r' ≠ objKey ci mf r := by
      intro r' hr' he
      have h1 := (List.nodup_cons.mp hrowsNodup).1
      exact h1 (he ▸ List.mem_map_of_mem (objKey ci mf) hr')
    have hrows' : ∀ r' ∈ rest,
        objKey ci mf r' ∈ (dictDel m (objKey ci mf r)).map Prod.fst := by
      intro r' hr'
      rw [← dictGet?_isSome_iff, dictGet?_dictDel_ne m _ _ (hkey_ne r' hr'),
        dictGet?_isSome_iff]
      exact hrows r' (by simp [hr'])
    have hsub' : ∀ p ∈ dictDel m (objKey ci mf r),
        ∃ r' ∈ rest, objKey ci mf r' = p.1 := by
      intro p hp
      obtain ⟨r', hr', hkr'⟩ := hsub p (mem_of_mem_dictDel hp)
      rcases List.mem_cons.mp hr' with rfl | hr''
      · exfalso
        have hfil := List.of_mem_filter hp
        rw [← hkr'] at hfil
        simp at hfil
      · exact ⟨r', hr'', hkr'⟩
    have hcopy' : ∀ p ∈ dictDel m (objKey ci mf r), ∀ f ∈ ufs,
        ((p.2).getattr? f).isSome :=
      fun p hp => hcopy p (mem_of_mem_dictDel hp)
    have hnodup' : (rest.map (objKey ci mf)).Nodup :=
      (List.nodup_cons.mp hrowsNodup).2
    obtain ⟨us, hus, husspec⟩ :=
      ih (dictDel m (objKey ci mf r)) hrows' hnodup' hsub' hcopy'
    refine ⟨u :: us, ?_, ?_⟩
    · simp only [applyUpdates, hobj, hu, hus]
    · intro r' hr'
      rcases List.mem_cons.mp hr' with rfl | hr''
      · exact ⟨obj, u, hobj, hu, by simp⟩
      · obtain ⟨obj', u', hobj', hu', hmem'⟩ := husspec r' hr''
        refine ⟨obj', u', ?_, hu', by simp [hmem']⟩
        rw [← dictGet?_dictDel_ne m (objKey ci mf r) _ (hkey_ne r' hr'')]
        exact hobj'

/-- With pairwise-distinct keys, looking up a record's key in the map
returns that record. -/
theorem dictGet?_map_pair_nodup (ci : Bool) (mf : List String) (objs : List Obj)
    (hnd : (objs.map (objKey ci mf)).Nodup) (o : Obj) (ho : o ∈ objs) :
    dictGet? (objs.map (fun o => (objKey ci mf o, o))) (objKey ci mf o) =
      some o := by
  induction objs with
  | nil => cases ho
  | cons a l ih =>
    rw [List.map_cons] at hnd
    have hnc := List.nodup_cons.mp hnd
    rcases List.mem_cons.mp ho with rfl | ho'
    · unfold dictGet?
      rw [List.map_cons, List.find?_cons_of_pos _ (by simp)]
      rfl
    · have hne : objKey ci mf a ≠ objKey ci mf o := by
        intro he
        exact hnc.1 (he ▸ List.mem_map_of_mem (objKey ci mf) ho')
      unfold dictGet?
      rw [List.map_cons, List.find?_cons_of_neg _ (by simpa using hne)]
      exact ih hnc.2 ho'

/-- The filter predicate over the map's keys holds for an entity exactly
when the entity's key equals some input record's key (non-empty input). -/
theorem objFilterPred_iff (ci : Bool) (mf : List String) (objs : List Obj)
    (hne : objs ≠ []) (e : Obj) :
    objFilterPred ci mf (objs.map (objKey ci mf)) e = true ↔
      ∃ o ∈ objs, objKey ci mf e = objKey ci mf o := by
  unfold objFilterPred
  have hkeys : (objs.map (objKey ci mf)).isEmpty = false := by
    cases objs with
    | nil => exact absurd rfl hne
    | cons a l => rfl
  rw [hkeys]
  simp only [Bool.false_or, List.any_eq_true]
  constructor
  · intro ⟨k, hk, hmk⟩
    obtain ⟨o, ho, rfl⟩ := List.mem_map.mp hk
    exact ⟨o, ho, (entityMatchesKey_objKey_iff ci mf e o).mp hmk⟩
  · intro ⟨o, ho, hk⟩
    exact ⟨objKey ci mf o, List.mem_map_of_mem _ ho,
      (entityMatchesKey_objKey_iff ci mf e o).mpr hk⟩

/-- **C2**: when every input record's match key matches a stored entity
(and keys are unambiguous: input keys pairwise distinct, store keys
pairwise distinct), the single (default) batch classifies every record as
updated and none as created: the outcome is `([], us)`, the store
operations are exactly the existence query and one bulk-update of the
mutated entities restricted to `update_fields` (no `save()`), and for
every record its matching entity is mutated by copying every update field
verbatim from the record. -/
theorem C2_all_updated (store objs : List Obj) (ufs mf : List String) (ci : Bool)
    (hv : validateCall objs ufs mf = none)
    (hnd : (objs.map (objKey ci mf)).Nodup)
    (hstore : (store.map (objKey ci mf)).Nodup)
    (hmatch : ∀ o ∈ objs, ∃ e ∈ store, objKey ci mf e = objKey ci mf o) :
    ∃ us, bulkUpdateOrCreate store objs ufs mf none ci =
      ([.filter (objs.map (objKey ci mf)), .bulkUpdate us ufs],
       replaceFiltered (objFilterPred ci mf (objs.map (objKey ci mf))) store us,
       .ok [([], us)]) ∧
      ∀ o ∈ objs, ∃ e u, e ∈ store ∧ objKey ci mf e = objKey ci mf o ∧
        copyFields ufs o e = some u ∧ u ∈ us ∧
        ∀ f ∈ ufs, u.getattr? f = o.getattr? f := by
  have hne : objs ≠ [] := ((validateCall_none_iff objs ufs mf).mp hv).1
  have hval := ((validateCall_none_iff objs ufs mf).mp hv).2.2
  have hmap := buildObjMap_nodup ci mf objs hnd
  have hkeys : (buildObjMap ci mf objs).map (fun p => p.1) =
      objs.map (objKey ci mf) := by
    rw [hmap, List.map_map]
    rfl
  set pred := objFilterPred ci mf (objs.map (objKey ci mf)) with hpred
  set rows := store.filter pred with hrowsdef
  have hrows : ∀ r ∈ rows, objKey ci mf r ∈ (buildObjMap ci mf objs).map Prod.fst := by
    intro r hr
    have hp := List.of_mem_filter hr
    obtain ⟨o, ho, hk⟩ := (objFilterPred_iff ci mf objs hne r).mp hp
    rw [hkeys, hk]
    exact List.mem_map_of_mem _ ho
  have hrowsNodup : (rows.map (objKey ci mf)).Nodup :=
    ((List.filter_sublist store).map (objKey ci mf)).nodup hstore
  have hsub : ∀ p ∈ buildObjMap ci mf objs, ∃ r ∈ rows, objKey ci mf r = p.1 := by
    intro p hp
    rw [hmap] at hp
    obtain ⟨o, ho, rfl⟩ := List.mem_map.mp hp
    obtain ⟨e, he, hk⟩ := hmatch o ho
    refine ⟨e, ?_, hk⟩
    rw [hrowsdef]
    exact List.mem_filter.mpr ⟨he, (objFilterPred_iff ci mf objs hne e).mpr ⟨o, ho, hk⟩⟩
  have hcopy : ∀ p ∈ buildObjMap ci mf objs, ∀ f ∈ ufs,
      ((p.2).getattr? f).isSome := by
    intro p hp f hf
    have := snd_mem_buildObjMap ci mf objs p hp
    exact (hval p.2 this).2 f hf
  obtain ⟨us, hus, husspec⟩ :=
    applyUpdates_complete ci mf ufs (buildObjMap ci mf objs) rows hrows
      hrowsNodup hsub hcopy
  refine ⟨us, ?_, ?_⟩
  · simp only [bulkUpdateOrCreate, hv, Option.getD_none]
    rw [batchesOf_self objs hne]
    simp only [runBatches, processBatch, hkeys]
    rw [← hpred, ← hrowsdef, hus]
    simp
  · intro o ho
    obtain ⟨e, he, hk⟩ := hmatch o ho
    have hemem : e ∈ rows := by
      rw [hrowsdef]
      exact List.mem_filter.mpr ⟨he, (objFilterPred_iff ci mf objs hne e).mpr ⟨o, ho, hk⟩⟩
    obtain ⟨obj, u, hobj, hcf, hmemu⟩ := husspec e hemem
    rw [hmap, hk, dictGet?_map_pair_nodup ci mf objs hnd o ho] at hobj
    have hobj' : o = obj := Option.some.inj hobj
    rw [← hobj'] at hcf
    obtain ⟨u', hu', huspec⟩ :=
      copyFields_spec ufs o e (fun f hf => (hval o ho).2 f hf)
    have huu : u' = u := by
      rw [hu'] at hcf
      exact Option.some.inj hcf
    refine ⟨e, u, he, hk, hcf, hmemu, ?_⟩
    intro f hf
    rw [← huu, huspec f]
    simp [hf]

/-- **C2 witness**: two records matching the two stored entities by key
produce a pure-update run: no creates, one bulk-update. -/
theorem C2_all_updated_witness :
    ∃ us, bulkUpdateOrCreate [storedA, storedB] [sampleA, sampleB] ["v"] ["k"]
        none false =
      ([.filter ([sampleA, sampleB].map (objKey false ["k"])),
        .bulkUpdate us ["v"]],
       replaceFiltered
         (objFilterPred false ["k"] ([sampleA, sampleB].map (objKey false ["k"])))
         [storedA, storedB] us,
       .ok [([], us)]) ∧
      ∀ o ∈ [sampleA, sampleB], ∃ e u, e ∈ [storedA, storedB] ∧
        objKey false ["k"] e = objKey false ["k"] o ∧
        copyFields ["v"] o e = some u ∧ u ∈ us ∧
        ∀ f ∈ ["v"], u.getattr? f = o.getattr? f :=
  C2_all_updated [storedA, storedB] [sampleA, sampleB] ["v"] ["k"] false
    (by decide) (by decide) (by decide) (by decide)

/-! ## Context-manager lemmas -/

/-- `dump_queue` on an empty buffer is a no-op: no store call, no
reconcile call, no callback, state unchanged. -/
theorem dump_queue_empty (cbOk : Outcome → Bool) (store : List Obj) (c : CM)
    (hq : c.queue = []) : dump_queue cbOk store c = ⟨c, store, [], [], 0, none⟩ := by
  unfold dump_queue
  rw [if_pos (by simp [hq])]

/-- A non-empty `dump_queue` makes exactly one `bulk_update_or_create`
call. -/
theorem dump_queue_reconcileCalls (cbOk : Outcome → Bool) (store : List Obj)
    (c : CM) (hq : c.queue ≠ []) :
    (dump_queue cbOk store c).reconcileCalls = 1 := by
  unfold dump_queue
  rw [if_neg (by simpa using hq)]
  cases hcb : c.hasCb with
  | true =>
    rw [if_pos rfl]
    cases hval : validateCall c.queue c.ufs c.mf with
    | some e => rfl
    | none =>
      rcases hfor : forStInR cbOk c.ci c.mf c.ufs store
          (batchesOf c.queue c.queue.length) with ⟨ops, store', calls, err⟩
      cases err <;> simp
  | false =>
    rw [if_neg (by simp)]
    rcases hbc : bulkUpdateOrCreate store c.queue c.ufs c.mf none c.ci with
      ⟨ops, store', res⟩
    cases res <;> simp

/-- Equation for a non-empty flush with a callback whose validation
fails: the error propagates out of the `for` loop's first `next()` and
the buffer is kept. -/
theorem dump_queue_hasCb_valErr (cbOk : Outcome → Bool) (store : List Obj)
    (c : CM) (hq : c.queue ≠ []) (hcb : c.hasCb = true) (e : PyErr)
    (hval : validateCall c.queue c.ufs c.mf = some e) :
    dump_queue cbOk store c = ⟨c, store, [], [], 1, some (.py e)⟩ := by
  unfold dump_queue
  rw [if_neg (by simpa using hq), hcb, if_pos rfl, hval]

/-- Equation for a non-empty flush with a callback, passing validation,
whose generator/callback loop raises: the buffer is kept. -/
theorem dump_queue_hasCb_err (cbOk : Outcome → Bool) (store : List Obj)
    (c : CM) (hq : c.queue ≠ []) (hcb : c.hasCb = true)
    (hval : validateCall c.queue c.ufs c.mf = none)
    (ops : List StoreOp) (store' : List Obj) (calls : List Outcome)
    (e : DumpErr)
    (hfor : forStInR cbOk c.ci c.mf c.ufs store
      (batchesOf c.queue c.queue.length) = (ops, store', calls, some e)) :
    dump_queue cbOk store c = ⟨c, store', ops, calls, 1, some e⟩ := by
  unfold dump_queue
  rw [if_neg (by simpa using hq), hcb, if_pos rfl, hval, hfor]

/-- Equation for a non-empty flush with a callback, passing validation,
whose generator/callback loop completes: the buffer is cleared only now,
after the generator was fully drained and every callback returned. -/
theorem dump_queue_hasCb_ok (cbOk : Outcome → Bool) (store : List Obj)
    (c : CM) (hq : c.queue ≠ []) (hcb : c.hasCb = true)
    (hval : validateCall c.queue c.ufs c.mf = none)
    (ops : List StoreOp) (store' : List Obj) (calls : List Outcome)
    (hfor : forStInR cbOk c.ci c.mf c.ufs store
      (batchesOf c.queue c.queue.length) = (ops, store', calls, none)) :
    dump_queue cbOk store c =
      ⟨{ c with queue := [] }, store', ops, calls, 1, none⟩ := by
  unfold dump_queue
  rw [if_neg (by simpa using hq), hcb, if_pos rfl, hval, hfor]

/-- Equation for a non-empty flush without a callback whose
materialising `bulk_update_or_create` call raises: the buffer is kept. -/
theorem dump_queue_noCb_err (cbOk : Outcome → Bool) (store : List Obj)
    (c : CM) (hq : c.queue ≠ []) (hcb : c.hasCb = false)
    (ops : List StoreOp) (store' : List Obj) (e : PyErr)
    (hbc : bulkUpdateOrCreate store c.queue c.ufs c.mf none c.ci =
      (ops, store', .error e)) :
    dump_queue cbOk store c = ⟨c, store', ops, [], 1, some (.py e)⟩ := by
  unfold dump_queue
  rw [if_neg (by simpa using hq), hcb, if_neg (by simp), hbc]

/-- Equation for a non-empty flush without a callback whose
`bulk_update_or_create` call completes: one reconcile call over the whole
buffer, then the buffer is cleared. -/
theorem dump_queue_noCb_ok (cbOk : Outcome → Bool) (store : List Obj)
    (c : CM) (hq : c.queue ≠ []) (hcb : c.hasCb = false)
    (ops : List StoreOp) (store' : List Obj) (outs : List Outcome)
    (hbc : bulkUpdateOrCreate store c.queue c.ufs c.mf none c.ci =
      (ops, store', .ok outs)) :
    dump_queue cbOk store c =
      ⟨{ c with queue := [] }, store', ops, [], 1, none⟩ := by
  unfold dump_queue
  rw [if_neg (by simpa using hq), hcb, if_neg (by simp), hbc]

/-- `self._queue = []` runs only when nothing raised: a `dump_queue`
whose result carries no error has cleared the buffer (other state fields
unchanged). -/
theorem dump_queue_success_clears (cbOk : Outcome → Bool) (store : List Obj)
    (c : CM) (hq : c.queue ≠ [])
    (h : (dump_queue cbOk store c).err = none) :
    (dump_queue cbOk store c).cm = { c with queue := [] } := by
  cases hcb : c.hasCb with
  | false =>
    rcases hbc : bulkUpdateOrCreate store c.queue c.ufs c.mf none c.ci with
      ⟨ops, store2, res⟩
    cases res with
    | error e =>
      rw [dump_queue_noCb_err cbOk store c hq hcb ops store2 e hbc] at h
      simp at h
    | ok outs =>
      rw [dump_queue_noCb_ok cbOk store c hq hcb ops store2 outs hbc]
      simp [hcb]
  | true =>
    cases hval : validateCall c.queue c.ufs c.mf with
    | some e =>
      rw [dump_queue_hasCb_valErr cbOk store c hq hcb e hval] at h
      simp at h
    | none =>
      rcases hfor : forStInR cbOk c.ci c.mf c.ufs store
          (batchesOf c.queue c.queue.length) with ⟨ops, store2, calls, err⟩
      cases err with
      | some e =>
        rw [dump_queue_hasCb_err cbOk store c hq hcb hval ops store2 calls e hfor]
          at h
        simp at h
      | none =>
        rw [dump_queue_hasCb_ok cbOk store c hq hcb hval ops store2 calls hfor]
        simp [hcb]

/-- An exception escaping `dump_queue` (reconciler or callback) skips
`self._queue = []`: the buffer — and the whole context-manager state — is
left as it was. -/
theorem dump_queue_error_keeps (cbOk : Outcome → Bool) (store : List Obj)
    (c : CM) (h : (dump_queue cbOk store c).err.isSome) :
    (dump_queue cbOk store c).cm = c := by
  by_cases hq : c.queue = []
  · rw [dump_queue_empty cbOk store c hq]
  · cases hcb : c.hasCb with
    | false =>
      rcases hbc : bulkUpdateOrCreate store c.queue c.ufs c.mf none c.ci with
        ⟨ops, store2, res⟩
      cases res with
      | error e => rw [dump_queue_noCb_err cbOk store c hq hcb ops store2 e hbc]
      | ok outs =>
        rw [dump_queue_noCb_ok cbOk store c hq hcb ops store2 outs hbc] at h
        simp at h
    | true =>
      cases hval : validateCall c.queue c.ufs c.mf with
      | some e => rw [dump_queue_hasCb_valErr cbOk store c hq hcb e hval]
      | none =>
        rcases hfor : forStInR cbOk c.ci c.mf c.ufs store
            (batchesOf c.queue c.queue.length) with ⟨ops, store2, calls, err⟩
        cases err with
        | some e =>
          rw [dump_queue_hasCb_err cbOk store c hq hcb hval ops store2 calls e hfor]
        | none =>
          rw [dump_queue_hasCb_ok cbOk store c hq hcb hval ops store2 calls hfor]
            at h
          simp at h

/-- **C7**: `queue(obj)` appends to the buffer and triggers `dump_queue`
exactly when the buffer length reaches the threshold (given the invariant
that it was below the threshold before): below it, the push is a pure
append with no store activity and no flush; at it, exactly one flush runs
on the appended buffer, and if nothing raised the buffer is empty, so
after every completed (non-raising) push the buffer length is strictly
below the threshold. -/
theorem C7_push_threshold (cbOk : Outcome → Bool) (store : List Obj) (c : CM)
    (o : Obj) (hbs : 0 < c.batchSize) (hinv : c.queue.length < c.batchSize) :
    ((cmQueue cbOk store c o).flushes =
      if c.queue.length + 1 = c.batchSize then 1 else 0) ∧
    (c.queue.length + 1 < c.batchSize →
      cmQueue cbOk store c o =
        ⟨{ c with queue := c.queue ++ [o] }, store, [], [], 0, none⟩) ∧
    (c.queue.length + 1 = c.batchSize →
      cmQueue cbOk store c o =
        ⟨(dump_queue cbOk store { c with queue := c.queue ++ [o] }).cm,
         (dump_queue cbOk store { c with queue := c.queue ++ [o] }).store,
         (dump_queue cbOk store { c with queue := c.queue ++ [o] }).ops,
         (dump_queue cbOk store { c with queue := c.queue ++ [o] }).cbCalls,
         1,
         (dump_queue cbOk store { c with queue := c.queue ++ [o] }).err⟩) ∧
    ((cmQueue cbOk store c o).err = none →
      (cmQueue cbOk store c o).cm.queue.length < c.batchSize) := by
  unfold cmQueue
  by_cases hge : c.batchSize ≤ c.queue.length + 1
  · have heq : c.queue.length + 1 = c.batchSize := by omega
    rw [if_pos (by simpa using hge)]
    refine ⟨by simp [heq], fun hlt => absurd heq (by omega), fun _ => rfl, ?_⟩
    intro herr
    have hq : ({ c with queue := c.queue ++ [o] } : CM).queue ≠ [] := by simp
    have hclear := dump_queue_success_clears cbOk store
      { c with queue := c.queue ++ [o] } hq herr
    show (dump_queue cbOk store { c with queue := c.queue ++ [o] }).cm.queue.length
      < c.batchSize
    rw [hclear]
    simpa using hbs
  · rw [if_neg (by simpa using hge)]
    refine ⟨by rw [if_neg (by omega)], fun _ => rfl,
      fun heq1 => absurd heq1 (by omega), ?_⟩
    intro _
    show (c.queue ++ [o]).length < c.batchSize
    simp only [List.length_append, List.length_cons, List.length_nil]
    omega

/-- **C7 witness**: pushing the threshold-th record into an accumulator
with threshold 1 triggers exactly one flush. -/
theorem C7_push_threshold_witness :
    (cmQueue (fun _ => true) [] ⟨[], 1, ["v"], ["k"], false, false⟩
        sampleA).flushes =
      if ([] : List Obj).length + 1 = 1 then 1 else 0 :=
  (C7_push_threshold (fun _ => true) [] ⟨[], 1, ["v"], ["k"], false, false⟩
    sampleA (by decide) (by decide)).1

/-- **C8**: `__exit__` ignores its exception arguments and invokes
`dump_queue` exactly once: the result is the same whether the scope exits
normally or exceptionally; an empty buffer is a no-op (no reconcile call,
no store operation); a non-empty buffer triggers exactly one
`bulk_update_or_create` call covering the entire buffer at once, and when
nothing raises the buffer ends empty — no buffered record is silently
dropped. -/
theorem C8_exit_flush (cbOk : Outcome → Bool) (store : List Obj) (c : CM)
    (exc exc' : Option PyErr) :
    (cmExit cbOk store c exc = dump_queue cbOk store c) ∧
    (cmExit cbOk store c exc = cmExit cbOk store c exc') ∧
    (c.queue = [] → cmExit cbOk store c exc = ⟨c, store, [], [], 0, none⟩) ∧
    (c.queue ≠ [] → (cmExit cbOk store c exc).reconcileCalls = 1) ∧
    (c.queue ≠ [] → (cmExit cbOk store c exc).err = none →
      (cmExit cbOk store c exc).cm.queue = []) ∧
    (c.queue ≠ [] → c.hasCb = false →
      ∀ (ops : List StoreOp) (store' : List Obj) (outs : List Outcome),
        bulkUpdateOrCreate store c.queue c.ufs c.mf none c.ci =
          (ops, store', .ok outs) →
        cmExit cbOk store c exc =
          ⟨{ c with queue := [] }, store', ops, [], 1, none⟩) := by
  refine ⟨rfl, rfl, fun hq => dump_queue_empty cbOk store c hq,
    fun hq => dump_queue_reconcileCalls cbOk store c hq, ?_, ?_⟩
  · intro hq herr
    have hclear := dump_queue_success_clears cbOk store c hq herr
    show (dump_queue cbOk store c).cm.queue = []
    rw [hclear]
  · intro hq hcb ops store' outs hbc
    exact dump_queue_noCb_ok cbOk store c hq hcb ops store' outs hbc

/-- **C8 witness**: exiting a scope with three buffered records (threshold
5) performs exactly one reconcile call covering all three, leaving the
buffer empty. -/
theorem C8_exit_flush_witness :
    cmExit (fun _ => true) []
        ⟨[sampleA, sampleB, sampleC], 5, ["v"], ["k"], false, false⟩ none =
      ⟨⟨[], 5, ["v"], ["k"], false, false⟩, [sampleA, sampleB, sampleC],
       [.filter [[some (.str "a")], [some (.str "b")], [some (.str "c")]],
        .bulkUpdate [] ["v"], .save sampleA, .save sampleB, .save sampleC],
       [], 1, none⟩ :=
  (C8_exit_flush (fun _ => true) []
      ⟨[sampleA, sampleB, sampleC], 5, ["v"], ["k"], false, false⟩
      none none).2.2.2.2.2 (by decide) rfl
    [.filter [[some (.str "a")], [some (.str "b")], [some (.str "c")]],
     .bulkUpdate [] ["v"], .save sampleA, .save sampleB, .save sampleC]
    [sampleA, sampleB, sampleC] [([sampleA, sampleB, sampleC], [])] rfl

/-- **C9**: during a non-empty flush with an observer configured (and
validation passing), the observer is called synchronously once per
produced outcome, in production order — here the inner call uses
`batch_size = None`, so exactly one outcome is produced — and the buffer
is cleared only after the generator is fully drained and every callback
returned: if the callback raises, or the reconciler itself raises, the
buffer still holds the flushed records. -/
theorem C9_observer_sequencing (cbOk : Outcome → Bool) (store : List Obj)
    (c : CM) (hq : c.queue ≠ []) (hcb : c.hasCb = true)
    (hval : validateCall c.queue c.ufs c.mf = none) :
    (∀ (ops : List StoreOp) (store1 : List Obj) (oc : Outcome),
      processBatch c.ci c.mf c.ufs store c.queue = (ops, store1, .ok oc) →
      (dump_queue cbOk store c).cbCalls = [oc] ∧
      (cbOk oc = true → dump_queue cbOk store c =
        ⟨{ c with queue := [] }, store1, ops, [oc], 1, none⟩) ∧
      (cbOk oc = false → dump_queue cbOk store c =
        ⟨c, store1, ops, [oc], 1, some .cbError⟩)) ∧
    (∀ (ops : List StoreOp) (store1 : List Obj) (e : PyErr),
      processBatch c.ci c.mf c.ufs store c.queue = (ops, store1, .error e) →
      dump_queue cbOk store c = ⟨c, store1, ops, [], 1, some (.py e)⟩) := by
  have hbatch : batchesOf c.queue c.queue.length = [c.queue] :=
    batchesOf_self c.queue hq
  constructor
  · intro ops store1 oc hpb
    by_cases hok : cbOk oc = true
    · have hfor : forStInR cbOk c.ci c.mf c.ufs store
          (batchesOf c.queue c.queue.length) = (ops, store1, [oc], none) := by
        rw [hbatch]
        simp only [forStInR, hpb, hok, if_true]
        simp [forStInR]
      have hdump :=
        dump_queue_hasCb_ok cbOk store c hq hcb hval ops store1 [oc] hfor
      exact ⟨by rw [hdump], fun _ => hdump,
        fun hf => absurd hok (by simp [hf])⟩
    · have hok' : cbOk oc = false := by simpa using hok
      have hfor : forStInR cbOk c.ci c.mf c.ufs store
          (batchesOf c.queue c.queue.length) =
            (ops, store1, [oc], some .cbError) := by
        rw [hbatch]
        simp only [forStInR, hpb, hok', Bool.false_eq_true, if_false]
      have hdump := dump_queue_hasCb_err cbOk store c hq hcb hval ops store1
        [oc] .cbError hfor
      exact ⟨by rw [hdump], fun ht => absurd ht (by simp [hok']),
        fun _ => hdump⟩
  · intro ops store1 e hpb
    have hfor : forStInR cbOk c.ci c.mf c.ufs store
        (batchesOf c.queue c.queue.length) = (ops, store1, [], some (.py e)) := by
      rw [hbatch]
      simp only [forStInR, hpb]
    exact dump_queue_hasCb_err cbOk store c hq hcb hval ops store1 [] (.py e)
      hfor

/-- **C9 witness**: flushing one buffered record with an observer that
raises leaves the buffer intact (not cleared) after the observer was
called once with the produced outcome. -/
theorem C9_observer_sequencing_witness :
    dump_queue (fun _ => false) []
        ⟨[sampleA], 5, ["v"], ["k"], false, true⟩ =
      ⟨⟨[sampleA], 5, ["v"], ["k"], false, true⟩, [sampleA],
       [.filter [[some (.str "a")]], .bulkUpdate [] ["v"], .save sampleA],
       [([sampleA], [])], 1, some .cbError⟩ :=
  ((C9_observer_sequencing (fun _ => false) []
      ⟨[sampleA], 5, ["v"], ["k"], false, true⟩ (by decide) rfl rfl).1
    [.filter [[some (.str "a")]], .bulkUpdate [] ["v"], .save sampleA]
    [sampleA] ([sampleA], []) rfl).2.2 rfl

/-- **C10**: with `yield_objects=True` the call returns the generator
unstarted — no validation and no store operation happen at call time, the
store is untouched — and the validation errors (for example the
empty-input error) surface only when the generator is first advanced;
with `yield_objects=False` the generator is drained inside the call, so
its store operations, its final store, and its error (if any) are exactly
those of the fully-drained reconcile run, all completed before the call
returns. -/
theorem C10_lazy_generator (store objs : List Obj) (ufs mf : List String)
    (bs : Option Nat) (ci : Bool) :
    (bulk_update_or_create_call store objs ufs mf bs ci true =
      ([], store, .generator (.start ⟨objs, ufs, mf, bs, ci, true⟩))) ∧
    (∀ e, validateCall objs ufs mf = some e →
      genNext store (.start ⟨objs, ufs, mf, bs, ci, true⟩) =
        ([], store, .raised e)) ∧
    (objs = [] →
      genNext store (.start ⟨objs, ufs, mf, bs, ci, true⟩) =
        ([], store, .raised (.valueError "no objects to update_or_create..."))) ∧
    (∀ (ops : List StoreOp) (store' : List Obj)
        (res : Except PyErr (List Outcome)),
      bulkUpdateOrCreate store objs ufs mf bs ci = (ops, store', res) →
      bulk_update_or_create_call store objs ufs mf bs ci false =
        (ops, store', .materialized (res.map (fun _ => ([] : List Outcome))))) := by
  refine ⟨rfl, ?_, ?_, ?_⟩
  · intro e he
    simp only [genNext, he]
  · intro he
    subst he
    rfl
  · intro ops store' res hbc
    unfold bulk_update_or_create_call
    rw [if_neg (by simp)]
    unfold bulkUpdateOrCreate at hbc
    cases hval : validateCall objs ufs mf with
    | some e =>
      rw [hval] at hbc
      simp only [Prod.mk.injEq] at hbc
      obtain ⟨h1, h2, h3⟩ := hbc
      subst h1
      subst h2
      subst h3
      simp only [genNext, hval]
      rfl
    | none =>
      rw [hval] at hbc
      dsimp only [] at hbc
      simp only [genNext, hval, genResume, Bool.false_eq_true, if_false]
      rw [hbc]
      cases res with
      | error e => rfl
      | ok outs => rfl

/-- **C10 witness**: calling with `yield_objects=True` on an empty input
does no work and raises the empty-input error only on first advance;
with `yield_objects=False` the same input errors inside the call. -/
theorem C10_lazy_generator_witness :
    (bulk_update_or_create_call [storedA] [] ["v"] ["k"] none false true =
      ([], [storedA], .generator (.start ⟨[], ["v"], ["k"], none, false, true⟩))) ∧
    (genNext [storedA] (.start ⟨[], ["v"], ["k"], none, false, true⟩) =
      ([], [storedA],
       .raised (.valueError "no objects to update_or_create..."))) ∧
    (bulk_update_or_create_call [storedA] [] ["v"] ["k"] none false false =
      ([], [storedA], .materialized
        ((Except.error (PyErr.valueError "no objects to update_or_create...") :
          Except PyErr (List Outcome)).map (fun _ => ([] : List Outcome))))) :=
  ⟨(C10_lazy_generator [storedA] [] ["v"] ["k"] none false).1,
   (C10_lazy_generator [storedA] [] ["v"] ["k"] none false).2.2.1 rfl,
   (C10_lazy_generator [storedA] [] ["v"] ["k"] none false).2.2.2 [] [storedA]
     (.error (.valueError "no objects to update_or_create...")) rfl⟩
